import Mathlib

/-!
Verification of the TimeCapsuleSMB discovery / SSH-toggle tool.

The development shallowly embeds the Python sources:
  * `discovery/discover_timecapsules.py` — the record fusion engine
    (`Collector._add_info`), the hint classifier (`_looks_like_time_capsule`)
    and the filter / fallback / sort pipeline of `discover`;
  * `setup.py` — `prefer_routable_ipv4`, `tcp_open`, `wait_for_ssh`;
  * `ssh/common.py` — `run`, `set_dbug`, `remove_property`, `reboot`;
  * `ssh/disable_ssh.py` — `ssh_stays_disabled`.

Python dicts are embedded as association lists with Python's dict semantics
(`dictGet` / `dictSet` / `dictUpdate`: updating an existing key replaces the
value in place, a new key is appended at the end — matching insertion-order
preservation of Python dicts).  Python sets are embedded as duplicate-free
lists built by `setAdd`; set-level statements go through `List.toFinset`.
Wall-clock time in the polling loops is embedded as a natural-number clock:
the probed network state is an arbitrary function of the time at which the
probe is taken, and `time.sleep(i)` advances the clock by `i`.
-/

namespace TimeCapsule

/-- Python-dict lookup on an association list (`d.get(k)` / `d[k]`). -/
def dictGet {α : Type} : List (String × α) → String → Option α
  | [], _ => none
  | (k', v) :: rest, k => if k' = k then some v else dictGet rest k

/-- Python-dict assignment `d[k] = v`: replace the value in place when the key
is present, otherwise append the new binding at the end. -/
def dictSet {α : Type} : List (String × α) → String → α → List (String × α)
  | [], k, v => [(k, v)]
  | (k', v') :: rest, k, v =>
    if k' = k then (k', v) :: rest else (k', v') :: dictSet rest k v

/-- Python `d.update(u)`: assign every binding of `u` in order. -/
def dictUpdate {α : Type} (d : List (String × α)) (u : List (String × α)) :
    List (String × α) :=
  u.foldl (fun acc kv => dictSet acc kv.1 kv.2) d

/-- Python `s.rstrip(".")`: drop trailing dots. -/
def rstripDot (s : String) : String :=
  String.mk ((s.data.reverse.dropWhile (fun c => c = '.')).reverse)

/-- Python `set.add`: append the element unless already present (the embedding
keeps insertion order, which is irrelevant to the set semantics). -/
def setAdd (s : List String) (x : String) : List String :=
  if x ∈ s then s else s ++ [x]

/-- The address-merge loop of `Collector._add_info`:
`for ip in new: if ip not in cur: cur.append(ip)`. -/
def appendNew (cur : List String) (new : List String) : List String :=
  new.foldl (fun acc ip => if ip ∈ acc then acc else acc ++ [ip]) cur

/-- A fused device record (`Discovered` in `discover_timecapsules.py`). -/
structure Discovered where
  name : String
  hostname : String
  ipv4 : List String
  ipv6 : List String
  services : List String
  properties : List (String × String)
deriving DecidableEq

/-- One advertisement event as it reaches `Collector._add_info`, after the
address bytes have been parsed and classified into v4 / v6 literals and the
property block has been decoded to strings (lines 126-147 of
`discover_timecapsules.py`; the claims under verification are about the
keyed merge of lines 149-170, which starts from exactly these fields). -/
structure ServiceEvent where
  stype : String
  name : String
  hostname : String
  ipv4 : List String
  ipv6 : List String
  props : List (String × String)
deriving DecidableEq

/-- The record key of an event: `key = hostname or name` (line 149). -/
def keyOf (e : ServiceEvent) : String :=
  if e.hostname = "" then e.name else e.hostname

/-- The in-place mutation of an existing (or freshly created) record inside
the lock of `Collector._add_info` (lines 158-170): union the service type,
fill in a missing hostname, append unseen addresses, merge non-empty
properties. -/
def mergeInto (rec : Discovered) (e : ServiceEvent) : Discovered :=
  let rec1 := { rec with services := setAdd rec.services e.stype }
  let rec2 :=
    if rec1.hostname = "" ∧ e.hostname ≠ "" then
      { rec1 with hostname := rstripDot e.hostname }
    else rec1
  let rec3 := { rec2 with ipv4 := appendNew rec2.ipv4 e.ipv4 }
  let rec4 := { rec3 with ipv6 := appendNew rec3.ipv6 e.ipv6 }
  { rec4 with
    properties :=
      dictUpdate rec4.properties (e.props.filter (fun kv => kv.2 ≠ "")) }

/-- The fresh record created on first sight of a key (line 156):
`Discovered(name=name, hostname=hostname.rstrip("."))`. -/
def freshRec (e : ServiceEvent) : Discovered :=
  { name := e.name, hostname := rstripDot e.hostname,
    ipv4 := [], ipv6 := [], services := [], properties := [] }

/-- `Collector._add_info` (lines 149-170): compute the key, bail out when it
is empty, look up or create the record, and merge the event into it. -/
def addInfo (records : List (String × Discovered)) (e : ServiceEvent) :
    List (String × Discovered) :=
  let key := keyOf e
  if key = "" then records
  else
    let rec0 :=
      match dictGet records key with
      | some r => r
      | none => freshRec e
    dictSet records key (mergeInto rec0 e)

/-- View of the address lists and the service-category list of the record
stored at a key. -/
def addrCatView (records : List (String × Discovered)) (k : String) :
    Option (List String × List String × List String) :=
  (dictGet records k).map fun r => (r.ipv4, r.ipv6, r.services)

/-- View of the address sets and the service-category set of the record
stored at a key. -/
def addrCatSet (records : List (String × Discovered)) (k : String) :
    Option (Finset String × Finset String × Finset String) :=
  (dictGet records k).map fun r =>
    (r.ipv4.toFinset, r.ipv6.toFinset, r.services.toFinset)

/-- First-occurrence deduplication, the specification of "append addresses
not already present, preserving first-seen order". -/
def dedupFirst : List String → List String
  | [] => []
  | a :: l => a :: dedupFirst (l.filter (fun x => x ≠ a))
termination_by l => l.length
decreasing_by
  simp only [List.length_cons]
  exact Nat.lt_succ_of_le (List.length_filter_le _ _)

/-! ### Association-list (Python dict) lemmas -/

theorem dictGet_dictSet_self {α : Type} (d : List (String × α)) (k : String)
    (v : α) : dictGet (dictSet d k v) k = some v := by
  induction d with
  | nil => simp [dictGet, dictSet]
  | cons kv rest ih =>
    obtain ⟨k', v'⟩ := kv
    by_cases h : k' = k
    · simp [dictGet, dictSet, h]
    · simp [dictGet, dictSet, h, ih]

theorem dictGet_dictSet_ne {α : Type} (d : List (String × α)) {k k' : String}
    (v : α) (h : k' ≠ k) : dictGet (dictSet d k v) k' = dictGet d k' := by
  have h' : ¬k = k' := fun hh => h hh.symm
  induction d with
  | nil => simp [dictGet, dictSet, h']
  | cons kv rest ih =>
    obtain ⟨k0, v0⟩ := kv
    by_cases h0 : k0 = k
    · subst h0
      simp [dictGet, dictSet, h']
    · simp only [dictSet, if_neg h0]
      by_cases h1 : k0 = k'
      · simp [dictGet, h1]
      · simp [dictGet, h1, ih]

theorem dictGet_isSome_dictSet {α : Type} (d : List (String × α))
    (k k' : String) (v : α) (h : (dictGet d k').isSome = true) :
    (dictGet (dictSet d k v) k').isSome = true := by
  by_cases hk : k' = k
  · subst hk; simp [dictGet_dictSet_self]
  · rwa [dictGet_dictSet_ne _ _ hk]

theorem dictGet_dictUpdate_notMem {α : Type} (u : List (String × α)) :
    ∀ (d : List (String × α)) (k : String), k ∉ u.map Prod.fst →
      dictGet (dictUpdate d u) k = dictGet d k := by
  induction u with
  | nil => intro d k _; rfl
  | cons kv rest ih =>
    intro d k hk
    simp only [List.map_cons, List.mem_cons] at hk
    push_neg at hk
    show dictGet (dictUpdate (dictSet d kv.1 kv.2) rest) k = dictGet d k
    rw [ih _ _ hk.2, dictGet_dictSet_ne _ _ hk.1]

theorem dictGet_dictUpdate_mem_nodup {α : Type} (u : List (String × α)) :
    ∀ (d : List (String × α)) (k : String) (v : α),
      (u.map Prod.fst).Nodup → (k, v) ∈ u →
      dictGet (dictUpdate d u) k = some v := by
  induction u with
  | nil => intro d k v _ hmem; cases hmem
  | cons kv rest ih =>
    intro d k v hnd hmem
    simp only [List.map_cons, List.nodup_cons] at hnd
    rcases List.mem_cons.mp hmem with heq | htail
    · subst heq
      show dictGet (dictUpdate (dictSet d k v) rest) k = some v
      have hk : k ∉ rest.map Prod.fst := hnd.1
      rw [dictGet_dictUpdate_notMem _ _ _ hk, dictGet_dictSet_self]
    · exact ih _ _ _ hnd.2 htail

theorem dictGet_isSome_dictUpdate {α : Type} (u : List (String × α)) :
    ∀ (d : List (String × α)) (k : String),
      (dictGet d k).isSome = true →
      (dictGet (dictUpdate d u) k).isSome = true := by
  induction u with
  | nil => intro d k h; exact h
  | cons kv rest ih =>
    intro d k h
    exact ih _ _ (dictGet_isSome_dictSet _ _ _ _ h)

/-! ### `appendNew` / `setAdd` lemmas -/

theorem appendNew_append (a l1 l2 : List String) :
    appendNew a (l1 ++ l2) = appendNew (appendNew a l1) l2 :=
  List.foldl_append ..

theorem mem_appendNew (l : List String) :
    ∀ (a : List String) (x : String), x ∈ appendNew a l ↔ x ∈ a ∨ x ∈ l := by
  induction l with
  | nil => intro a x; simp [appendNew]
  | cons y ys ih =>
    intro a x
    show x ∈ appendNew (if y ∈ a then a else a ++ [y]) ys ↔ _
    rw [ih]
    by_cases hy : y ∈ a
    · simp only [if_pos hy, List.mem_cons]
      constructor
      · rintro (h | h)
        · exact Or.inl h
        · exact Or.inr (Or.inr h)
      · rintro (h | h | h)
        · exact Or.inl h
        · exact Or.inl (h ▸ hy)
        · exact Or.inr h
    · simp only [if_neg hy, List.mem_append, List.mem_singleton, List.mem_cons]
      tauto

theorem appendNew_of_subset {a l : List String} (h : ∀ x ∈ l, x ∈ a) :
    appendNew a l = a := by
  induction l with
  | nil => rfl
  | cons y ys ih =>
    show appendNew (if y ∈ a then a else a ++ [y]) ys = a
    rw [if_pos (h y (List.mem_cons_self y ys))]
    exact ih (fun x hx => h x (List.mem_cons_of_mem y hx))

theorem appendNew_idem (a l : List String) :
    appendNew (appendNew a l) l = appendNew a l :=
  appendNew_of_subset (fun x hx => (mem_appendNew l a x).mpr (Or.inr hx))

theorem appendNew_exists_append (l : List String) :
    ∀ a : List String, ∃ t, appendNew a l = a ++ t := by
  induction l with
  | nil => intro a; exact ⟨[], (List.append_nil a).symm⟩
  | cons y ys ih =>
    intro a
    show ∃ t, appendNew (if y ∈ a then a else a ++ [y]) ys = a ++ t
    by_cases hy : y ∈ a
    · rw [if_pos hy]; exact ih a
    · rw [if_neg hy]
      obtain ⟨t, ht⟩ := ih (a ++ [y])
      exact ⟨[y] ++ t, by rw [ht, List.append_assoc]⟩

theorem toFinset_appendNew (a l : List String) :
    (appendNew a l).toFinset = a.toFinset ∪ l.toFinset := by
  ext x
  simp [List.mem_toFinset, mem_appendNew]

theorem appendNew_eq_dedupFirst_filter (l : List String) :
    ∀ a : List String,
      appendNew a l = a ++ dedupFirst (l.filter (fun x => x ∉ a)) := by
  induction l with
  | nil => intro a; simp [appendNew, dedupFirst]
  | cons y ys ih =>
    intro a
    show appendNew (if y ∈ a then a else a ++ [y]) ys = _
    by_cases hy : y ∈ a
    · rw [if_pos hy, ih a, List.filter_cons, if_neg (by simpa using hy)]
    · rw [if_neg hy, ih (a ++ [y]), List.filter_cons,
        if_pos (by simpa using hy), dedupFirst]
      have hfil :
          (ys.filter (fun x => x ∉ a)).filter (fun x => x ≠ y)
            = ys.filter (fun x => x ∉ a ++ [y]) := by
        rw [List.filter_filter]
        apply List.filter_congr
        intro x _
        by_cases hxa : x ∈ a <;> by_cases hxy : x = y <;> simp [hxa, hxy]
      rw [← hfil]
      simp [List.append_assoc]

theorem appendNew_nil_eq_dedupFirst (l : List String) :
    appendNew [] l = dedupFirst l := by
  have h := appendNew_eq_dedupFirst_filter l []
  simpa using h

theorem mem_setAdd (s : List String) (x y : String) :
    y ∈ setAdd s x ↔ y ∈ s ∨ y = x := by
  unfold setAdd
  by_cases h : x ∈ s
  · simp only [if_pos h]
    constructor
    · exact Or.inl
    · rintro (hy | hy)
      · exact hy
      · exact hy ▸ h
  · simp [if_neg h]

theorem setAdd_idem (s : List String) (x : String) :
    setAdd (setAdd s x) x = setAdd s x := by
  unfold setAdd
  by_cases h : x ∈ s
  · simp [if_pos h]
  · simp [if_neg h]

theorem toFinset_setAdd (s : List String) (x : String) :
    (setAdd s x).toFinset = insert x s.toFinset := by
  ext y
  simp only [List.mem_toFinset, mem_setAdd, Finset.mem_insert]
  tauto

/-! ### Component behaviour of `mergeInto` and folds of `addInfo` -/

theorem mergeInto_ipv4 (r : Discovered) (e : ServiceEvent) :
    (mergeInto r e).ipv4 = appendNew r.ipv4 e.ipv4 := by
  simp only [mergeInto]
  split <;> rfl

theorem mergeInto_ipv6 (r : Discovered) (e : ServiceEvent) :
    (mergeInto r e).ipv6 = appendNew r.ipv6 e.ipv6 := by
  simp only [mergeInto]
  split <;> rfl

theorem mergeInto_services (r : Discovered) (e : ServiceEvent) :
    (mergeInto r e).services = setAdd r.services e.stype := by
  simp only [mergeInto]
  split <;> rfl

theorem mergeInto_properties (r : Discovered) (e : ServiceEvent) :
    (mergeInto r e).properties
      = dictUpdate r.properties (e.props.filter (fun kv => kv.2 ≠ "")) := by
  simp only [mergeInto]
  split <;> rfl

theorem foldl_mergeInto_ipv4 (es : List ServiceEvent) :
    ∀ r : Discovered,
      (List.foldl mergeInto r es).ipv4
        = appendNew r.ipv4 (es.flatMap ServiceEvent.ipv4) := by
  induction es with
  | nil => intro r; simp [appendNew]
  | cons e rest ih =>
    intro r
    show (List.foldl mergeInto (mergeInto r e) rest).ipv4 = _
    rw [ih, mergeInto_ipv4, List.flatMap_cons, appendNew_append]

theorem foldl_mergeInto_ipv6 (es : List ServiceEvent) :
    ∀ r : Discovered,
      (List.foldl mergeInto r es).ipv6
        = appendNew r.ipv6 (es.flatMap ServiceEvent.ipv6) := by
  induction es with
  | nil => intro r; simp [appendNew]
  | cons e rest ih =>
    intro r
    show (List.foldl mergeInto (mergeInto r e) rest).ipv6 = _
    rw [ih, mergeInto_ipv6, List.flatMap_cons, appendNew_append]

theorem foldl_mergeInto_services (es : List ServiceEvent) :
    ∀ r : Discovered,
      (List.foldl mergeInto r es).services
        = List.foldl setAdd r.services (es.map ServiceEvent.stype) := by
  induction es with
  | nil => intro r; rfl
  | cons e rest ih =>
    intro r
    show (List.foldl mergeInto (mergeInto r e) rest).services = _
    rw [ih, mergeInto_services, List.map_cons, List.foldl_cons]

theorem toFinset_foldl_setAdd (ts : List String) :
    ∀ s : List String,
      (List.foldl setAdd s ts).toFinset = s.toFinset ∪ ts.toFinset := by
  induction ts with
  | nil => intro s; simp
  | cons t rest ih =>
    intro s
    rw [List.foldl_cons, ih, toFinset_setAdd]
    ext x
    simp only [Finset.mem_union, Finset.mem_insert, List.mem_toFinset,
      List.mem_cons]
    tauto

theorem addInfo_key_empty (s : List (String × Discovered)) (e : ServiceEvent)
    (h : keyOf e = "") : addInfo s e = s := by
  unfold addInfo
  simp [h]

theorem addInfo_of_get_some (s : List (String × Discovered))
    (e : ServiceEvent) (r : Discovered) (hk : keyOf e ≠ "")
    (hr : dictGet s (keyOf e) = some r) :
    addInfo s e = dictSet s (keyOf e) (mergeInto r e) := by
  unfold addInfo
  simp [hk, hr]

theorem addInfo_of_get_none (s : List (String × Discovered))
    (e : ServiceEvent) (hk : keyOf e ≠ "")
    (hr : dictGet s (keyOf e) = none) :
    addInfo s e = dictSet s (keyOf e) (mergeInto (freshRec e) e) := by
  unfold addInfo
  simp [hk, hr]

theorem addInfo_get_other (s : List (String × Discovered)) (e : ServiceEvent)
    (k : String) (hk : k ≠ keyOf e) :
    dictGet (addInfo s e) k = dictGet s k := by
  by_cases he : keyOf e = ""
  · rw [addInfo_key_empty s e he]
  · cases hr : dictGet s (keyOf e) with
    | some r => rw [addInfo_of_get_some s e r he hr, dictGet_dictSet_ne _ _ hk]
    | none => rw [addInfo_of_get_none s e he hr, dictGet_dictSet_ne _ _ hk]

theorem foldl_addInfo_of_get_some (es : List ServiceEvent) :
    ∀ (s : List (String × Discovered)) (k : String) (r : Discovered),
      k ≠ "" → (∀ e ∈ es, keyOf e = k) → dictGet s k = some r →
      dictGet (List.foldl addInfo s es) k = some (List.foldl mergeInto r es) := by
  induction es with
  | nil => intro s k r _ _ hr; exact hr
  | cons e rest ih =>
    intro s k r hk hkeys hr
    have hke : keyOf e = k := hkeys e (List.mem_cons_self e rest)
    have h1 : addInfo s e = dictSet s k (mergeInto r e) := by
      rw [← hke] at hr hk ⊢
      exact addInfo_of_get_some s e r hk hr
    show dictGet (List.foldl addInfo (addInfo s e) rest) k = _
    rw [h1]
    exact ih _ _ _ hk (fun e' he' => hkeys e' (List.mem_cons_of_mem e he'))
      (dictGet_dictSet_self _ _ _)

theorem foldl_addInfo_of_get_none (e : ServiceEvent) (es : List ServiceEvent)
    (s : List (String × Discovered)) (k : String) (hk : k ≠ "")
    (hkeys : ∀ e' ∈ e :: es, keyOf e' = k) (hr : dictGet s k = none) :
    dictGet (List.foldl addInfo s (e :: es)) k
      = some (List.foldl mergeInto (mergeInto (freshRec e) e) es) := by
  have hke : keyOf e = k := hkeys e (List.mem_cons_self e es)
  have h1 : addInfo s e = dictSet s k (mergeInto (freshRec e) e) := by
    rw [← hke] at hr hk ⊢
    exact addInfo_of_get_none s e hk hr
  show dictGet (List.foldl addInfo (addInfo s e) es) k = _
  rw [h1]
  exact foldl_addInfo_of_get_some es _ _ _ hk
    (fun e' he' => hkeys e' (List.mem_cons_of_mem e he'))
    (dictGet_dictSet_self _ _ _)

theorem mergeInto_twice_ipv4 (r : Discovered) (e : ServiceEvent) :
    (mergeInto (mergeInto r e) e).ipv4 = (mergeInto r e).ipv4 := by
  rw [mergeInto_ipv4, mergeInto_ipv4, appendNew_idem]

theorem mergeInto_twice_ipv6 (r : Discovered) (e : ServiceEvent) :
    (mergeInto (mergeInto r e) e).ipv6 = (mergeInto r e).ipv6 := by
  rw [mergeInto_ipv6, mergeInto_ipv6, appendNew_idem]

theorem mergeInto_twice_services (r : Discovered) (e : ServiceEvent) :
    (mergeInto (mergeInto r e) e).services = (mergeInto r e).services := by
  rw [mergeInto_services, mergeInto_services, setAdd_idem]

theorem addrCatView_addInfo_idem (s : List (String × Discovered))
    (e : ServiceEvent) (k : String) :
    addrCatView (addInfo (addInfo s e) e) k = addrCatView (addInfo s e) k := by
  by_cases he : keyOf e = ""
  · rw [addInfo_key_empty (addInfo s e) e he]
  · obtain ⟨r0, hs1⟩ : ∃ r0, addInfo s e = dictSet s (keyOf e) (mergeInto r0 e) := by
      cases hr : dictGet s (keyOf e) with
      | some r => exact ⟨r, addInfo_of_get_some s e r he hr⟩
      | none => exact ⟨freshRec e, addInfo_of_get_none s e he hr⟩
    have hget : dictGet (addInfo s e) (keyOf e) = some (mergeInto r0 e) := by
      rw [hs1]; exact dictGet_dictSet_self _ _ _
    have h2 : addInfo (addInfo s e) e
        = dictSet (addInfo s e) (keyOf e) (mergeInto (mergeInto r0 e) e) :=
      addInfo_of_get_some _ e _ he hget
    by_cases hk : k = keyOf e
    · subst hk
      unfold addrCatView
      rw [h2, dictGet_dictSet_self, hget]
      simp only [Option.map_some']
      rw [mergeInto_twice_ipv4, mergeInto_twice_ipv6, mergeInto_twice_services]
    · unfold addrCatView
      rw [h2, dictGet_dictSet_ne _ _ hk]

theorem addrCatSet_foldl_some (es : List ServiceEvent)
    (s : List (String × Discovered)) (k : String) (r : Discovered)
    (hk : k ≠ "") (hkeys : ∀ e ∈ es, keyOf e = k)
    (hr : dictGet s k = some r) :
    addrCatSet (List.foldl addInfo s es) k
      = some (r.ipv4.toFinset ∪ (es.flatMap ServiceEvent.ipv4).toFinset,
              r.ipv6.toFinset ∪ (es.flatMap ServiceEvent.ipv6).toFinset,
              r.services.toFinset ∪ (es.map ServiceEvent.stype).toFinset) := by
  unfold addrCatSet
  rw [foldl_addInfo_of_get_some es s k r hk hkeys hr]
  simp only [Option.map_some']
  rw [foldl_mergeInto_ipv4, foldl_mergeInto_ipv6, foldl_mergeInto_services,
    toFinset_appendNew, toFinset_appendNew, toFinset_foldl_setAdd]

theorem addrCatSet_foldl_none (e : ServiceEvent) (es : List ServiceEvent)
    (s : List (String × Discovered)) (k : String) (hk : k ≠ "")
    (hkeys : ∀ e' ∈ e :: es, keyOf e' = k) (hr : dictGet s k = none) :
    addrCatSet (List.foldl addInfo s (e :: es)) k
      = some ((((e :: es).flatMap ServiceEvent.ipv4).toFinset : Finset String),
              ((e :: es).flatMap ServiceEvent.ipv6).toFinset,
              ((e :: es).map ServiceEvent.stype).toFinset) := by
  unfold addrCatSet
  rw [foldl_addInfo_of_get_none e es s k hk hkeys hr]
  simp only [Option.map_some']
  refine congrArg some ?_
  have h4 : (List.foldl mergeInto (mergeInto (freshRec e) e) es).ipv4.toFinset
      = ((e :: es).flatMap ServiceEvent.ipv4).toFinset := by
    rw [foldl_mergeInto_ipv4, mergeInto_ipv4, ← appendNew_append]
    show (appendNew ([] : List String) _).toFinset = _
    rw [toFinset_appendNew, List.flatMap_cons]
    simp
  have h6 : (List.foldl mergeInto (mergeInto (freshRec e) e) es).ipv6.toFinset
      = ((e :: es).flatMap ServiceEvent.ipv6).toFinset := by
    rw [foldl_mergeInto_ipv6, mergeInto_ipv6, ← appendNew_append]
    show (appendNew ([] : List String) _).toFinset = _
    rw [toFinset_appendNew, List.flatMap_cons]
    simp
  have hsvc : (List.foldl mergeInto (mergeInto (freshRec e) e) es).services.toFinset
      = ((e :: es).map ServiceEvent.stype).toFinset := by
    rw [foldl_mergeInto_services, toFinset_foldl_setAdd, mergeInto_services,
      toFinset_setAdd]
    show insert e.stype ([] : List String).toFinset ∪ _ = _
    ext x
    simp only [Finset.mem_union, Finset.mem_insert, List.mem_toFinset,
      List.map_cons, List.mem_cons, List.toFinset_nil, Finset.not_mem_empty,
      or_false]
  rw [h4, h6, hsvc]

theorem addrCatSet_foldl_perm (s : List (String × Discovered)) (k : String)
    (es1 es2 : List ServiceEvent) (hk : k ≠ "")
    (hkeys : ∀ e ∈ es1, keyOf e = k) (hp : es1.Perm es2) :
    addrCatSet (List.foldl addInfo s es1) k
      = addrCatSet (List.foldl addInfo s es2) k := by
  have hkeys2 : ∀ e ∈ es2, keyOf e = k := fun e he => hkeys e (hp.symm.subset he)
  have h4 : (es1.flatMap ServiceEvent.ipv4).toFinset
      = (es2.flatMap ServiceEvent.ipv4).toFinset :=
    List.toFinset_eq_of_perm _ _ (hp.flatMap_right ServiceEvent.ipv4)
  have h6 : (es1.flatMap ServiceEvent.ipv6).toFinset
      = (es2.flatMap ServiceEvent.ipv6).toFinset :=
    List.toFinset_eq_of_perm _ _ (hp.flatMap_right ServiceEvent.ipv6)
  have hsvc : (es1.map ServiceEvent.stype).toFinset
      = (es2.map ServiceEvent.stype).toFinset :=
    List.toFinset_eq_of_perm _ _ (hp.map ServiceEvent.stype)
  cases hr : dictGet s k with
  | some r =>
    rw [addrCatSet_foldl_some es1 s k r hk hkeys hr,
      addrCatSet_foldl_some es2 s k r hk hkeys2 hr, h4, h6, hsvc]
  | none =>
    cases es1 with
    | nil =>
      have h0 : es2 = [] := hp.symm.eq_nil
      rw [h0]
    | cons e rest =>
      cases es2 with
      | nil => exact absurd hp.length_eq (by simp)
      | cons e2 rest2 =>
        rw [addrCatSet_foldl_none e rest s k hk hkeys hr,
          addrCatSet_foldl_none e2 rest2 s k hk hkeys2 hr, h4, h6, hsvc]

theorem foldl_addInfo_dedupFirst (e : ServiceEvent) (es : List ServiceEvent)
    (s : List (String × Discovered)) (k : String) (hk : k ≠ "")
    (hkeys : ∀ e' ∈ e :: es, keyOf e' = k) (hr : dictGet s k = none) :
    (dictGet (List.foldl addInfo s (e :: es)) k).map Discovered.ipv4
        = some (dedupFirst ((e :: es).flatMap ServiceEvent.ipv4)) ∧
    (dictGet (List.foldl addInfo s (e :: es)) k).map Discovered.ipv6
        = some (dedupFirst ((e :: es).flatMap ServiceEvent.ipv6)) := by
  rw [foldl_addInfo_of_get_none e es s k hk hkeys hr]
  constructor
  · simp only [Option.map_some']
    rw [foldl_mergeInto_ipv4, mergeInto_ipv4, ← appendNew_append]
    show some (appendNew ([] : List String) _) = _
    rw [appendNew_nil_eq_dedupFirst, List.flatMap_cons]
  · simp only [Option.map_some']
    rw [foldl_mergeInto_ipv6, mergeInto_ipv6, ← appendNew_append]
    show some (appendNew ([] : List String) _) = _
    rw [appendNew_nil_eq_dedupFirst, List.flatMap_cons]

/-- C1: for sequences of advertisement events on the same record key, the
merge of `Collector._add_info` is idempotent (applying the same event twice
leaves the address lists and the category set exactly as after one
application, so no address is ever duplicated) and commutative with respect
to the final address sets and service-category set (any permutation of the
event sequence yields the same sets); starting from no record, the final
IPv4/IPv6 lists are the first-seen-order deduplication of the concatenated
event addresses; and in the spec's three-event scenario on host `nas.local.`
with addresses `10.0.0.5`, `10.0.0.5`, `10.0.1.2` the record ends with
`ipv4 = ["10.0.0.5", "10.0.1.2"]` and the three service categories. -/
theorem C1_merge_idempotent_commutative :
    (∀ (s : List (String × Discovered)) (e : ServiceEvent) (k : String),
      addrCatView (addInfo (addInfo s e) e) k = addrCatView (addInfo s e) k) ∧
    (∀ (s : List (String × Discovered)) (k : String)
        (es1 es2 : List ServiceEvent), k ≠ "" →
      (∀ e ∈ es1, keyOf e = k) → es1.Perm es2 →
      addrCatSet (List.foldl addInfo s es1) k
        = addrCatSet (List.foldl addInfo s es2) k) ∧
    (∀ (s : List (String × Discovered)) (k : String) (e : ServiceEvent)
        (es : List ServiceEvent), k ≠ "" →
      (∀ e' ∈ e :: es, keyOf e' = k) → dictGet s k = none →
      (dictGet (List.foldl addInfo s (e :: es)) k).map Discovered.ipv4
          = some (dedupFirst ((e :: es).flatMap ServiceEvent.ipv4)) ∧
      (dictGet (List.foldl addInfo s (e :: es)) k).map Discovered.ipv6
          = some (dedupFirst ((e :: es).flatMap ServiceEvent.ipv6))) ∧
    ((dictGet (List.foldl addInfo []
        [⟨"_airport._tcp.local.", "nas", "nas.local.", ["10.0.0.5"], [], []⟩,
         ⟨"_smb._tcp.local.", "nas", "nas.local.", ["10.0.0.5"], [], []⟩,
         ⟨"_afpovertcp._tcp.local.", "nas", "nas.local.", ["10.0.1.2"], [], []⟩])
        "nas.local.").map Discovered.ipv4 = some ["10.0.0.5", "10.0.1.2"] ∧
     (dictGet (List.foldl addInfo []
        [⟨"_airport._tcp.local.", "nas", "nas.local.", ["10.0.0.5"], [], []⟩,
         ⟨"_smb._tcp.local.", "nas", "nas.local.", ["10.0.0.5"], [], []⟩,
         ⟨"_afpovertcp._tcp.local.", "nas", "nas.local.", ["10.0.1.2"], [], []⟩])
        "nas.local.").map (fun r => r.services.toFinset)
       = some ({"_airport._tcp.local.", "_smb._tcp.local.",
                "_afpovertcp._tcp.local."} : Finset String)) :=
  ⟨addrCatView_addInfo_idem,
   fun s k es1 es2 hk hkeys hp => addrCatSet_foldl_perm s k es1 es2 hk hkeys hp,
   fun s k e es hk hkeys hr => foldl_addInfo_dedupFirst e es s k hk hkeys hr,
   by decide, by decide⟩

/-- C1 witness: the commutativity conjunct applied to two concrete two-event
sequences and the first-seen-order conjunct applied to a concrete duplicate
address, with all hypotheses discharged on concrete data. -/
theorem C1_merge_idempotent_commutative_witness :
    (addrCatSet (List.foldl addInfo []
        [⟨"_smb._tcp.local.", "a", "h", ["1.2.3.4"], [], []⟩,
         ⟨"_afpovertcp._tcp.local.", "a", "h", ["5.6.7.8"], [], []⟩]) "h"
      = addrCatSet (List.foldl addInfo []
        [⟨"_afpovertcp._tcp.local.", "a", "h", ["5.6.7.8"], [], []⟩,
         ⟨"_smb._tcp.local.", "a", "h", ["1.2.3.4"], [], []⟩]) "h") ∧
    ((dictGet (List.foldl addInfo []
        [⟨"_smb._tcp.local.", "a", "h", ["1.2.3.4", "1.2.3.4"], [], []⟩])
        "h").map Discovered.ipv4
      = some (dedupFirst ["1.2.3.4", "1.2.3.4"])) :=
  ⟨C1_merge_idempotent_commutative.2.1 [] "h"
      [⟨"_smb._tcp.local.", "a", "h", ["1.2.3.4"], [], []⟩,
       ⟨"_afpovertcp._tcp.local.", "a", "h", ["5.6.7.8"], [], []⟩]
      [⟨"_afpovertcp._tcp.local.", "a", "h", ["5.6.7.8"], [], []⟩,
       ⟨"_smb._tcp.local.", "a", "h", ["1.2.3.4"], [], []⟩]
      (by decide) (by decide) (by decide),
   (C1_merge_idempotent_commutative.2.2.1 [] "h"
      ⟨"_smb._tcp.local.", "a", "h", ["1.2.3.4", "1.2.3.4"], [], []⟩ []
      (by decide) (by decide) rfl).1⟩

/-- C3: records are keyed by the advertised hostname when present, else by
the advertised name; an event with neither creates no record (the state is
unchanged); a merge never touches any key other than the event's own key
(so an established key never changes); and at every existing key, the merge
only extends the IPv4/IPv6 lists (by appending), the service-category set
and the metadata key set — nothing ever shrinks. -/
theorem C3_keying_and_monotonicity :
    (∀ (s : List (String × Discovered)) (e : ServiceEvent),
      e.hostname = "" → e.name = "" → addInfo s e = s) ∧
    (∀ (s : List (String × Discovered)) (e : ServiceEvent), keyOf e ≠ "" →
      (dictGet (addInfo s e) (keyOf e)).isSome = true) ∧
    (∀ (s : List (String × Discovered)) (e : ServiceEvent) (k : String),
      k ≠ keyOf e → dictGet (addInfo s e) k = dictGet s k) ∧
    (∀ (s : List (String × Discovered)) (e : ServiceEvent) (k : String)
        (r : Discovered), dictGet s k = some r →
      ∃ r', dictGet (addInfo s e) k = some r' ∧
        (∃ t, r'.ipv4 = r.ipv4 ++ t) ∧ (∃ t, r'.ipv6 = r.ipv6 ++ t) ∧
        (∀ x ∈ r.services, x ∈ r'.services) ∧
        (∀ k', (dictGet r.properties k').isSome = true →
          (dictGet r'.properties k').isSome = true)) := by
  refine ⟨?_, ?_, ?_, ?_⟩
  · intro s e hh hn
    exact addInfo_key_empty s e (by simp [keyOf, hh, hn])
  · intro s e hk
    cases hr : dictGet s (keyOf e) with
    | some r =>
      rw [addInfo_of_get_some s e r hk hr, dictGet_dictSet_self]
      rfl
    | none =>
      rw [addInfo_of_get_none s e hk hr, dictGet_dictSet_self]
      rfl
  · intro s e k hk
    exact addInfo_get_other s e k hk
  · intro s e k r hr
    by_cases hke : k = keyOf e
    · by_cases he : keyOf e = ""
      · refine ⟨r, ?_, ⟨[], by simp⟩, ⟨[], by simp⟩, fun x hx => hx,
          fun k' h => h⟩
        rw [addInfo_key_empty s e he, hr]
      · subst hke
        rw [addInfo_of_get_some s e r he hr]
        refine ⟨mergeInto r e, dictGet_dictSet_self _ _ _, ?_, ?_, ?_, ?_⟩
        · rw [mergeInto_ipv4]; exact appendNew_exists_append _ _
        · rw [mergeInto_ipv6]; exact appendNew_exists_append _ _
        · intro x hx
          rw [mergeInto_services]
          exact (mem_setAdd _ _ _).mpr (Or.inl hx)
        · intro k' h
          rw [mergeInto_properties]
          exact dictGet_isSome_dictUpdate _ _ _ h
    · refine ⟨r, ?_, ⟨[], by simp⟩, ⟨[], by simp⟩, fun x hx => hx,
        fun k' h => h⟩
      rw [addInfo_get_other s e k hke, hr]

/-- C3 witness: the empty-key, key-placement and other-key conjuncts applied
to concrete states and events, hypotheses discharged by computation. -/
theorem C3_keying_and_monotonicity_witness :
    addInfo [("h", ⟨"a", "h", ["1.1.1.1"], [], ["_smb._tcp.local."],
        [("model", "X")]⟩)] ⟨"_device-info._tcp.local.", "", "", [], [], []⟩
      = [("h", ⟨"a", "h", ["1.1.1.1"], [], ["_smb._tcp.local."],
        [("model", "X")]⟩)] ∧
    (dictGet (addInfo [("h", ⟨"a", "h", ["1.1.1.1"], [], ["_smb._tcp.local."],
        [("model", "X")]⟩)] ⟨"_airport._tcp.local.", "a", "h", ["2.2.2.2"],
        [], []⟩) (keyOf ⟨"_airport._tcp.local.", "a", "h", ["2.2.2.2"], [],
        []⟩)).isSome = true ∧
    dictGet (addInfo [("h", ⟨"a", "h", ["1.1.1.1"], [], ["_smb._tcp.local."],
        [("model", "X")]⟩)] ⟨"_airport._tcp.local.", "a", "h", ["2.2.2.2"],
        [], []⟩) "z"
      = dictGet [("h", ⟨"a", "h", ["1.1.1.1"], [], ["_smb._tcp.local."],
        [("model", "X")]⟩)] "z" :=
  ⟨C3_keying_and_monotonicity.1 _ _ rfl rfl,
   C3_keying_and_monotonicity.2.1 _ _ (by decide),
   C3_keying_and_monotonicity.2.2.1 _ _ "z" (by decide)⟩

/-! ### C2: metadata-conflict behaviour of the merge -/

theorem nodupKeys_val_unique {α : Type} (u : List (String × α)) :
    ∀ (k : String) (v1 v2 : α), (u.map Prod.fst).Nodup →
      (k, v1) ∈ u → (k, v2) ∈ u → v1 = v2 := by
  induction u with
  | nil => intro k v1 v2 _ h1; cases h1
  | cons kv rest ih =>
    intro k v1 v2 hnd h1 h2
    simp only [List.map_cons, List.nodup_cons] at hnd
    rcases List.mem_cons.mp h1 with he1 | ht1 <;>
      rcases List.mem_cons.mp h2 with he2 | ht2
    · rw [← he2] at he1; exact congrArg Prod.snd he1
    · exfalso
      exact hnd.1 (he1 ▸ (List.mem_map.mpr ⟨(k, v2), ht2, rfl⟩))
    · exfalso
      exact hnd.1 (he2 ▸ (List.mem_map.mpr ⟨(k, v1), ht1, rfl⟩))
    · exact ih k v1 v2 hnd.2 ht1 ht2

/-- C2 counterexample: the merge of `Collector._add_info` runs
`rec.properties.update({k: v for k, v in props.items() if v})`, so an
incoming non-empty metadata value overwrites an existing non-empty stored
value — the record does not keep `"OldModel"` on the conflict, contradicting
the claim that the existing non-empty value is kept. -/
theorem C2_keep_existing_counterexample :
    dictGet (mergeInto
        ⟨"nas", "nas.local", [], [], [], [("model", "OldModel")]⟩
        ⟨"_smb._tcp.local.", "nas", "nas.local.", [], [],
          [("model", "NewModel")]⟩).properties "model"
      = some "NewModel" ∧
    ("NewModel" : String) ≠ "OldModel" ∧ ("OldModel" : String) ≠ "" := by
  decide

/-- C2 (amended): on a metadata key present in both the record and the
incoming event (whose decoded property block has unique keys, as a Python
dict), the incoming value wins whenever it is non-empty; the stored value is
kept exactly when the incoming value is empty. -/
theorem C2_amended_incoming_nonempty_wins :
    ∀ (r : Discovered) (e : ServiceEvent) (k v : String),
      (e.props.map Prod.fst).Nodup → (k, v) ∈ e.props →
      (v ≠ "" → dictGet (mergeInto r e).properties k = some v) ∧
      (v = "" → dictGet (mergeInto r e).properties k
          = dictGet r.properties k) := by
  intro r e k v hnd hmem
  rw [mergeInto_properties]
  constructor
  · intro hv
    apply dictGet_dictUpdate_mem_nodup
    · exact ((List.filter_sublist _).map Prod.fst).nodup hnd
    · exact List.mem_filter.mpr ⟨hmem, by simpa using hv⟩
  · intro hv
    apply dictGet_dictUpdate_notMem
    intro hin
    obtain ⟨⟨k2, w⟩, hin2, hfst⟩ := List.mem_map.mp hin
    obtain ⟨hmem2, hw⟩ := List.mem_filter.mp hin2
    cases hfst
    have : w = v := nodupKeys_val_unique e.props k2 w v hnd hmem2 hmem
    rw [this, hv] at hw
    simp at hw

/-- C2 witness: the amended theorem applied to a concrete conflicting key,
hypotheses discharged by computation. -/
theorem C2_amended_incoming_nonempty_wins_witness :
    dictGet (mergeInto ⟨"n", "h", [], [], [], [("model", "Old")]⟩
        ⟨"_smb._tcp.local.", "n", "h", [], [],
          [("model", "New")]⟩).properties "model" = some "New" :=
  (C2_amended_incoming_nonempty_wins _ _ "model" "New" (by decide)
    (by decide)).1 (by decide)

/-! ### The classifier (`_looks_like_time_capsule` and `discover`) -/

/-- Python `needle == hay[:len(needle)]` on character lists. -/
def strStartsList : List Char → List Char → Bool
  | [], _ => true
  | _ :: _, [] => false
  | a :: as, b :: bs => a = b && strStartsList as bs

/-- Python substring test `needle in hay` on character lists. -/
def listHasSub (n : List Char) : List Char → Bool
  | [] => n.isEmpty
  | c :: rest => strStartsList n (c :: rest) || listHasSub n rest

/-- Python substring test `needle in hay` on strings. -/
def strHasSub (needle hay : String) : Bool :=
  listHasSub needle.data hay.data

/-- ASCII lowercasing of one character (Python `str.lower`; every string the
classifier lowercases here is ASCII, where the two agree). -/
def lowerChar (c : Char) : Char :=
  if 65 ≤ c.toNat ∧ c.toNat ≤ 90 then Char.ofNat (c.toNat + 32) else c

/-- Python `s.lower()`. -/
def strLower (s : String) : String := String.mk (s.data.map lowerChar)

/-- `TIME_CAPSULE_HINTS` (lines 45-51 of `discover_timecapsules.py`). -/
def TIME_CAPSULE_HINTS : List String :=
  ["time capsule", "timecapsule", "capsule", "airport time capsule",
   "airport"]

/-- `_looks_like_time_capsule` (lines 89-99): the display name or the
`model` property contains one of the hint substrings case-insensitively, or
the space-stripped model contains `timecapsule`. -/
def looksLikeTimeCapsule (name : String)
    (props : List (String × String)) : Bool :=
  let s := strLower name
  if TIME_CAPSULE_HINTS.any (fun h => strHasSub h s) then true
  else
    let model := strLower ((dictGet props "model").getD "")
    if TIME_CAPSULE_HINTS.any (fun h => strHasSub h model) then true
    else strHasSub "timecapsule" (String.mk (model.data.filter (fun c => c ≠ ' ')))

/-- Lexicographic strict comparison of character lists: Python's string
comparison by code points. -/
def lexLtb : List Char → List Char → Bool
  | _, [] => false
  | [], _ :: _ => true
  | a :: as, b :: bs =>
    if a < b then true else if a = b then lexLtb as bs else false

/-- Python `a < b` on strings. -/
def strLt (a b : String) : Bool := lexLtb a.data b.data

theorem lexLtb_cons_iff (a b : Char) (as bs : List Char) :
    lexLtb (a :: as) (b :: bs) = true
      ↔ a < b ∨ (a = b ∧ lexLtb as bs = true) := by
  show (if a < b then true else if a = b then lexLtb as bs else false) = true
    ↔ _
  by_cases h1 : a < b
  · simp [h1]
  · by_cases h2 : a = b <;> simp [h1, h2]

theorem lexLtb_irrefl : ∀ as : List Char, lexLtb as as = false := by
  intro as
  induction as with
  | nil => rfl
  | cons a as' ih =>
    show (if a < a then true else if a = a then lexLtb as' as' else false)
      = false
    rw [if_neg (lt_irrefl a), if_pos rfl, ih]

theorem lexLtb_trans : ∀ as bs cs : List Char, lexLtb as bs = true →
    lexLtb bs cs = true → lexLtb as cs = true := by
  intro as
  induction as with
  | nil =>
    intro bs cs h1 h2
    cases bs with
    | nil => cases h1
    | cons b bs' =>
      cases cs with
      | nil => cases h2
      | cons c cs' => rfl
  | cons a as' ih =>
    intro bs cs h1 h2
    cases bs with
    | nil => cases h1
    | cons b bs' =>
      cases cs with
      | nil => cases h2
      | cons c cs' =>
        rw [lexLtb_cons_iff] at h1 h2 ⊢
        rcases h1 with h1 | ⟨rfl, h1⟩
        · rcases h2 with h2 | ⟨rfl, h2⟩
          · exact Or.inl (h1.trans h2)
          · exact Or.inl h1
        · rcases h2 with h2 | ⟨rfl, h2⟩
          · exact Or.inl h2
          · exact Or.inr ⟨rfl, ih _ _ h1 h2⟩

theorem lexLtb_asymm {as bs : List Char} (h : lexLtb as bs = true) :
    lexLtb bs as = false := by
  cases hb : lexLtb bs as with
  | false => rfl
  | true =>
    have := lexLtb_trans _ _ _ h hb
    rw [lexLtb_irrefl] at this
    cases this

theorem lexLtb_trichotomy : ∀ as bs : List Char,
    lexLtb as bs = true ∨ as = bs ∨ lexLtb bs as = true := by
  intro as
  induction as with
  | nil =>
    intro bs
    cases bs with
    | nil => exact Or.inr (Or.inl rfl)
    | cons b bs' => exact Or.inl rfl
  | cons a as' ih =>
    intro bs
    cases bs with
    | nil => exact Or.inr (Or.inr rfl)
    | cons b bs' =>
      rcases lt_trichotomy a b with h | h | h
      · exact Or.inl ((lexLtb_cons_iff a b as' bs').mpr (Or.inl h))
      · subst h
        rcases ih bs' with h' | h' | h'
        · exact Or.inl ((lexLtb_cons_iff a a as' bs').mpr (Or.inr ⟨rfl, h'⟩))
        · exact Or.inr (Or.inl (by rw [h']))
        · exact Or.inr
            (Or.inr ((lexLtb_cons_iff a a bs' as').mpr (Or.inr ⟨rfl, h'⟩)))
      · exact Or.inr (Or.inr ((lexLtb_cons_iff b a bs' as').mpr (Or.inl h)))

theorem strLt_irrefl (s : String) : strLt s s = false := lexLtb_irrefl _

theorem strLt_trans {a b c : String} (h1 : strLt a b = true)
    (h2 : strLt b c = true) : strLt a c = true := lexLtb_trans _ _ _ h1 h2

theorem strLt_asymm {a b : String} (h : strLt a b = true) :
    strLt b a = false := lexLtb_asymm h

theorem strLt_trichotomy (a b : String) :
    strLt a b = true ∨ a = b ∨ strLt b a = true := by
  rcases lexLtb_trichotomy a.data b.data with h | h | h
  · exact Or.inl h
  · refine Or.inr (Or.inl ?_)
    cases a
    cases b
    exact congrArg String.mk h
  · exact Or.inr (Or.inr h)

/-- The sort comparison of `discover` (line 199): Python's ascending stable
sort with `key=lambda r: (r.hostname or "", r.name or "")` puts record `a`
no later than `b` iff the key tuple of `a` is lexicographically at most the
key tuple of `b`. -/
def keyLE (a b : Discovered) : Prop :=
  strLt a.hostname b.hostname = true ∨
    (a.hostname = b.hostname ∧ strLt b.name a.name = false)

instance : DecidableRel keyLE := fun a b => by
  unfold keyLE
  infer_instance

instance : IsTotal Discovered keyLE :=
  ⟨by
    intro a b
    rcases strLt_trichotomy a.hostname b.hostname with h | h | h
    · exact Or.inl (Or.inl h)
    · cases hn : strLt b.name a.name with
      | false => exact Or.inl (Or.inr ⟨h, hn⟩)
      | true => exact Or.inr (Or.inr ⟨h.symm, strLt_asymm hn⟩)
    · exact Or.inr (Or.inl h)⟩

instance : IsTrans Discovered keyLE :=
  ⟨by
    intro a b c hab hbc
    rcases hab with h1 | ⟨e1, n1⟩ <;> rcases hbc with h2 | ⟨e2, n2⟩
    · exact Or.inl (strLt_trans h1 h2)
    · refine Or.inl ?_
      rw [← e2]
      exact h1
    · refine Or.inl ?_
      rw [e1]
      exact h2
    · refine Or.inr ⟨e1.trans e2, ?_⟩
      cases hca : strLt c.name a.name with
      | false => rfl
      | true =>
        exfalso
        rcases strLt_trichotomy a.name b.name with h | h | h
        · rw [strLt_trans hca h] at n2
          cases n2
        · rw [← h, hca] at n2
          cases n2
        · rw [h] at n1
          cases n1⟩

/-- The classification pipeline of `discover` (lines 190-200): keep records
matching `_looks_like_time_capsule`; if none matched, fall back to records
advertising `_airport._tcp.local.`; sort by `(hostname, name)` with
Python's stable ascending sort. -/
def classify (rs : List Discovered) : List Discovered :=
  let filtered := rs.filter (fun r => looksLikeTimeCapsule r.name r.properties)
  let filtered2 :=
    if filtered.isEmpty then
      rs.filter (fun r => decide ("_airport._tcp.local." ∈ r.services))
    else filtered
  List.insertionSort keyLE filtered2

theorem keyLE_antisymm_key {a b : Discovered} (h1 : keyLE a b)
    (h2 : keyLE b a) : (a.hostname, a.name) = (b.hostname, b.name) := by
  rcases h1 with h1 | ⟨e1, n1⟩ <;> rcases h2 with h2 | ⟨e2, n2⟩
  · rw [strLt_asymm h1] at h2
    cases h2
  · rw [e2, strLt_irrefl] at h1
    cases h1
  · rw [e1, strLt_irrefl] at h2
    cases h2
  · have hn : a.name = b.name := by
      rcases strLt_trichotomy a.name b.name with h | h | h
      · rw [h] at n2
        cases n2
      · exact h
      · rw [h] at n1
        cases n1
    rw [e1, hn]

theorem sorted_perm_pairwiseKey_eq :
    ∀ l1 l2 : List Discovered, l1.Perm l2 → List.Sorted keyLE l1 →
      List.Sorted keyLE l2 →
      List.Pairwise
        (fun a b => (a.hostname, a.name) ≠ (b.hostname, b.name)) l1 →
      l1 = l2 := by
  intro l1
  induction l1 with
  | nil =>
    intro l2 hp _ _ _
    exact (hp.symm.eq_nil).symm
  | cons a t1 ih =>
    intro l2 hp hs1 hs2 hpw
    cases l2 with
    | nil => exact absurd hp.length_eq (by simp)
    | cons b t2 =>
      have hab : a = b := by
        by_contra hne
        have hat2 : a ∈ t2 := by
          rcases List.mem_cons.mp (hp.subset (List.mem_cons_self a t1)) with
            h | h
          · exact absurd h hne
          · exact h
        have hbt1 : b ∈ t1 := by
          rcases List.mem_cons.mp
            (hp.symm.subset (List.mem_cons_self b t2)) with h | h
          · exact absurd h.symm hne
          · exact h
        have h1 : keyLE a b := (List.sorted_cons.mp hs1).1 b hbt1
        have h2 : keyLE b a := (List.sorted_cons.mp hs2).1 a hat2
        exact (List.pairwise_cons.mp hpw).1 b hbt1 (keyLE_antisymm_key h1 h2)
      subst hab
      rw [ih t2 hp.cons_inv (List.sorted_cons.mp hs1).2
        (List.sorted_cons.mp hs2).2 (List.pairwise_cons.mp hpw).2]

/-- C4 counterexample: `discover` sorts by `(r.hostname or "", r.name or "")`
ascending, and the empty string is the minimum of the lexicographic string
order, so a record with an empty `hostname` is placed FIRST, not last: with
one empty-hostname record and one named-host record the empty-hostname
record leads the classifier output. -/
theorem C4_empty_hostname_last_counterexample :
    classify [⟨"capsule b", "", [], [], [], []⟩,
              ⟨"capsule a", "zhost", [], [], [], []⟩]
      = [⟨"capsule b", "", [], [], [], []⟩,
         ⟨"capsule a", "zhost", [], [], [], []⟩] ∧
    (⟨"capsule b", "", [], [], [], []⟩ : Discovered).hostname = "" ∧
    (⟨"capsule a", "zhost", [], [], [], []⟩ : Discovered).hostname ≠ "" := by
  decide

/-- C4 (amended): the classifier output is sorted ascending by the pair
(canonicalHost, displayName) — which places records with an empty
canonicalHost first, not last — and the ordering is deterministic: two
enumerations of the same record set (permutations of each other) with
pairwise distinct `(hostname, name)` keys classify to the identical output
list. -/
theorem C4_amended_sorted_deterministic :
    (∀ rs : List Discovered, List.Sorted keyLE (classify rs)) ∧
    (∀ rs1 rs2 : List Discovered, rs1.Perm rs2 →
      List.Pairwise
        (fun a b => (a.hostname, a.name) ≠ (b.hostname, b.name)) rs1 →
      classify rs1 = classify rs2) := by
  constructor
  · intro rs
    exact List.sorted_insertionSort keyLE _
  · intro rs1 rs2 hp hpw
    have hsym : Symmetric
        (fun a b : Discovered =>
          (a.hostname, a.name) ≠ (b.hostname, b.name)) :=
      fun a b h => h.symm
    have hf : (rs1.filter
          (fun r => looksLikeTimeCapsule r.name r.properties)).Perm
        (rs2.filter (fun r => looksLikeTimeCapsule r.name r.properties)) :=
      hp.filter _
    have hemp : (rs1.filter
          (fun r => looksLikeTimeCapsule r.name r.properties)).isEmpty
        = (rs2.filter
          (fun r => looksLikeTimeCapsule r.name r.properties)).isEmpty := by
      cases h1 : (rs1.filter
          (fun r => looksLikeTimeCapsule r.name r.properties)) with
      | nil =>
        have hf' := hf
        rw [h1] at hf'
        rw [hf'.symm.eq_nil]
      | cons x xs =>
        cases h2 : (rs2.filter
            (fun r => looksLikeTimeCapsule r.name r.properties)) with
        | nil => exact absurd (h2 ▸ hf).eq_nil (by simp [h1])
        | cons y ys => rfl
    simp only [classify]
    rw [hemp]
    by_cases hcase : (rs2.filter
        (fun r => looksLikeTimeCapsule r.name r.properties)).isEmpty
    · rw [if_pos hcase, if_pos hcase]
      have hfa : (rs1.filter
            (fun r => decide ("_airport._tcp.local." ∈ r.services))).Perm
          (rs2.filter
            (fun r => decide ("_airport._tcp.local." ∈ r.services))) :=
        hp.filter _
      apply sorted_perm_pairwiseKey_eq
      · exact (List.perm_insertionSort keyLE _).trans
          (hfa.trans (List.perm_insertionSort keyLE _).symm)
      · exact List.sorted_insertionSort keyLE _
      · exact List.sorted_insertionSort keyLE _
      · exact ((List.perm_insertionSort keyLE _).pairwise_iff
            (fun h => Ne.symm h)).mpr
          (hpw.sublist (List.filter_sublist _))
    · rw [if_neg hcase, if_neg hcase]
      apply sorted_perm_pairwiseKey_eq
      · exact (List.perm_insertionSort keyLE _).trans
          (hf.trans (List.perm_insertionSort keyLE _).symm)
      · exact List.sorted_insertionSort keyLE _
      · exact List.sorted_insertionSort keyLE _
      · exact ((List.perm_insertionSort keyLE _).pairwise_iff
            (fun h => Ne.symm h)).mpr
          (hpw.sublist (List.filter_sublist _))

/-- C4 witness: the determinism conjunct applied to two concrete permuted
two-record lists with distinct keys. -/
theorem C4_amended_sorted_deterministic_witness :
    classify [⟨"capsule b", "", [], [], [], []⟩,
              ⟨"capsule a", "zhost", [], [], [], []⟩]
      = classify [⟨"capsule a", "zhost", [], [], [], []⟩,
                  ⟨"capsule b", "", [], [], [], []⟩] :=
  C4_amended_sorted_deterministic.2
    [⟨"capsule b", "", [], [], [], []⟩,
     ⟨"capsule a", "zhost", [], [], [], []⟩]
    [⟨"capsule a", "zhost", [], [], [], []⟩,
     ⟨"capsule b", "", [], [], [], []⟩]
    (by decide) (by decide)

/-- Modelled from the spec (claim C5's own description of the primary rule):
a record matches when its display name OR ANY metadata value contains a
case-insensitive match of a known hint substring.  This is the claim's
wording, kept for comparison with the code's `_looks_like_time_capsule`,
which only consults the `model` property. -/
def specPrimaryHintMatch (r : Discovered) : Bool :=
  TIME_CAPSULE_HINTS.any (fun h => strHasSub h (strLower r.name)) ||
    r.properties.any
      (fun kv => TIME_CAPSULE_HINTS.any (fun h => strHasSub h (strLower kv.2)))

/-- C5 counterexample: a record whose metadata value under the key `info`
contains the hint `time capsule` matches the claim's description of the
primary rule ("display name or metadata value"), yet the code's primary rule
(`_looks_like_time_capsule`, which only reads the `model` property) rejects
it, the fallback branch runs, and — the record not advertising
`_airport._tcp.local.` — the classifier output is empty, where the claim
(at least one primary match, fallback contributes nothing) would have kept
the record. -/
theorem C5_metadata_value_counterexample :
    specPrimaryHintMatch
        ⟨"x", "h", [], [], [], [("info", "Time Capsule attic")]⟩ = true ∧
    looksLikeTimeCapsule "x" [("info", "Time Capsule attic")] = false ∧
    classify [⟨"x", "h", [], [], [], [("info", "Time Capsule attic")]⟩]
      = [] := by
  decide

/-- C5 (amended): with the primary rule as the code defines it — the display
name or the `model` metadata value contains a case-insensitive hint
substring, or the space-stripped model contains `timecapsule` — a record
appears in the classifier output iff it is an input record matching that
primary rule, or no input record at all matches it and the record advertised
the `_airport._tcp.local.` base station service; so the fallback applies
exactly when the primary match count is zero and contributes nothing
otherwise. -/
theorem C5_fallback_iff_no_primary_match :
    ∀ (rs : List Discovered) (r : Discovered),
      r ∈ classify rs ↔
        ((r ∈ rs ∧ looksLikeTimeCapsule r.name r.properties = true) ∨
         ((∀ r' ∈ rs, looksLikeTimeCapsule r'.name r'.properties = false) ∧
          r ∈ rs ∧ "_airport._tcp.local." ∈ r.services)) := by
  intro rs r
  simp only [classify]
  rw [(List.perm_insertionSort keyLE _).mem_iff]
  by_cases hemp : (rs.filter
      (fun r => looksLikeTimeCapsule r.name r.properties)).isEmpty
  · rw [if_pos hemp]
    have hall : ∀ r' ∈ rs, looksLikeTimeCapsule r'.name r'.properties = false := by
      intro r' hr'
      have hnil : (rs.filter
          (fun r => looksLikeTimeCapsule r.name r.properties)) = [] := by
        cases h : (rs.filter
            (fun r => looksLikeTimeCapsule r.name r.properties)) with
        | nil => rfl
        | cons x xs => rw [h] at hemp; cases hemp
      by_contra hne
      have : r' ∈ (rs.filter
          (fun r => looksLikeTimeCapsule r.name r.properties)) :=
        List.mem_filter.mpr ⟨hr', by simpa using hne⟩
      rw [hnil] at this
      cases this
    constructor
    · intro hmem
      obtain ⟨hin, hdec⟩ := List.mem_filter.mp hmem
      exact Or.inr ⟨hall, hin, by simpa using hdec⟩
    · rintro (⟨hin, hlooks⟩ | ⟨_, hin, hsvc⟩)
      · exact absurd hlooks (by simp [hall r hin])
      · exact List.mem_filter.mpr ⟨hin, by simpa using hsvc⟩
  · rw [if_neg hemp]
    have hex : ∃ r0 ∈ rs, looksLikeTimeCapsule r0.name r0.properties = true := by
      cases h : (rs.filter
          (fun r => looksLikeTimeCapsule r.name r.properties)) with
      | nil => rw [h] at hemp; cases hemp rfl
      | cons x xs =>
        have hx : x ∈ (rs.filter
            (fun r => looksLikeTimeCapsule r.name r.properties)) := by
          rw [h]; exact List.mem_cons_self x xs
        obtain ⟨hin, hdec⟩ := List.mem_filter.mp hx
        exact ⟨x, hin, hdec⟩
    constructor
    · intro hmem
      obtain ⟨hin, hdec⟩ := List.mem_filter.mp hmem
      exact Or.inl ⟨hin, hdec⟩
    · rintro (⟨hin, hlooks⟩ | ⟨hnone, _, _⟩)
      · exact List.mem_filter.mpr ⟨hin, hlooks⟩
      · obtain ⟨r0, hr0, hl0⟩ := hex
        rw [hnone r0 hr0] at hl0
        cases hl0

/-! ### `prefer_routable_ipv4` (setup.py lines 40-45) -/

/-- Python `s.startswith(pre)`. -/
def strStarts (pre s : String) : Bool := strStartsList pre.data s.data

/-- The loop of `prefer_routable_ipv4`: return the first address that does
not start with `"169.254."`. -/
def findRoutable : List String → Option String
  | [] => none
  | ip :: rest =>
    if strStarts "169.254." ip then findRoutable rest else some ip

/-- `prefer_routable_ipv4` (setup.py lines 40-45): first non-link-local IPv4
if any, else the first IPv4, else the empty string. -/
def prefer_routable_ipv4 (rec : Discovered) : String :=
  match findRoutable rec.ipv4 with
  | some ip => ip
  | none =>
    match rec.ipv4 with
    | [] => ""
    | ip :: _ => ip

theorem findRoutable_all_ll (l : List String)
    (h : ∀ x ∈ l, strStarts "169.254." x = true) : findRoutable l = none := by
  induction l with
  | nil => rfl
  | cons ip rest ih =>
    show (if strStarts "169.254." ip then findRoutable rest else some ip)
      = none
    rw [if_pos (h ip (List.mem_cons_self ip rest))]
    exact ih (fun x hx => h x (List.mem_cons_of_mem ip hx))

theorem findRoutable_split : ∀ (pre : List String) (ip : String)
    (post : List String), (∀ x ∈ pre, strStarts "169.254." x = true) →
    strStarts "169.254." ip = false →
    findRoutable (pre ++ ip :: post) = some ip := by
  intro pre
  induction pre with
  | nil =>
    intro ip post _ hip
    show (if strStarts "169.254." ip then findRoutable post else some ip)
      = some ip
    rw [hip]
    rfl
  | cons x xs ih =>
    intro ip post hpre hip
    show (if strStarts "169.254." x then findRoutable (xs ++ ip :: post)
      else some x) = some ip
    rw [if_pos (hpre x (List.mem_cons_self x xs))]
    exact ih ip post (fun y hy => hpre y (List.mem_cons_of_mem x hy)) hip

/-- C10: `prefer_routable_ipv4` returns the empty string on a record with no
IPv4 addresses (and never raises — it is total); when some address does not
lie in the link-local `169.254.0.0/16` block (equivalently for the
dotted-quad strings the collector stores: does not start with `"169.254."`),
it returns the first such address; when every address is link-local it falls
back to the record's first address. -/
theorem C10_prefer_routable_ipv4 :
    ∀ rec : Discovered,
      (rec.ipv4 = [] → prefer_routable_ipv4 rec = "") ∧
      (∀ pre ip post, rec.ipv4 = pre ++ ip :: post →
        (∀ x ∈ pre, strStarts "169.254." x = true) →
        strStarts "169.254." ip = false → prefer_routable_ipv4 rec = ip) ∧
      ((∀ x ∈ rec.ipv4, strStarts "169.254." x = true) →
        ∀ ip post, rec.ipv4 = ip :: post → prefer_routable_ipv4 rec = ip) := by
  intro rec
  refine ⟨?_, ?_, ?_⟩
  · intro h
    unfold prefer_routable_ipv4
    rw [h]
    rfl
  · intro pre ip post hsplit hpre hip
    unfold prefer_routable_ipv4
    rw [hsplit, findRoutable_split pre ip post hpre hip]
  · intro hall ip post hcons
    unfold prefer_routable_ipv4
    rw [hcons, findRoutable_all_ll _ (hcons ▸ hall)]

/-- C10 witness: the three conjuncts applied to concrete records. -/
theorem C10_prefer_routable_ipv4_witness :
    prefer_routable_ipv4 ⟨"n", "h", ["169.254.10.1", "10.0.0.5"], [], [], []⟩
      = "10.0.0.5" ∧
    prefer_routable_ipv4 ⟨"n", "h", [], [], [], []⟩ = "" ∧
    prefer_routable_ipv4 ⟨"n", "h", ["169.254.10.1"], [], [], []⟩
      = "169.254.10.1" :=
  ⟨(C10_prefer_routable_ipv4
      ⟨"n", "h", ["169.254.10.1", "10.0.0.5"], [], [], []⟩).2.1
      ["169.254.10.1"] "10.0.0.5" [] rfl (by decide) (by decide),
   (C10_prefer_routable_ipv4 ⟨"n", "h", [], [], [], []⟩).1 rfl,
   (C10_prefer_routable_ipv4 ⟨"n", "h", ["169.254.10.1"], [], [], []⟩).2.2
      (by decide) "169.254.10.1" [] rfl⟩

/-! ### `tcp_open` (setup.py lines 76-88) -/

/-- Abstract outcome of one `socket.connect` attempt inside `tcp_open`. -/
inductive ConnectOutcome where
  | success
  | refused
  | timedOut
  | unreachable
deriving DecidableEq

/-- The address loop of `tcp_open`: return `True` at the first successful
connect; `socket.timeout`, `ConnectionRefusedError` and `OSError` are caught
and the loop continues with the next resolved address. -/
def tcpLoop (connect : String → ConnectOutcome) : List String → Bool
  | [] => false
  | a :: rest =>
    match connect a with
    | ConnectOutcome.success => true
    | _ => tcpLoop connect rest

/-- `tcp_open` (setup.py lines 76-88).  `resolved` is the outcome of
`socket.getaddrinfo`: any exception it raises (including `gaierror` for an
unresolvable host) is caught by the function's outer
`except Exception: return False`, so a resolution failure produces `false`;
otherwise every resolved address is tried in order. -/
def tcp_open (resolved : Except String (List String))
    (connect : String → ConnectOutcome) : Bool :=
  match resolved with
  | Except.error _ => false
  | Except.ok addrs => tcpLoop connect addrs

theorem tcpLoop_eq_true_iff (connect : String → ConnectOutcome) :
    ∀ addrs : List String, tcpLoop connect addrs = true ↔
      ∃ a ∈ addrs, connect a = ConnectOutcome.success := by
  intro addrs
  induction addrs with
  | nil => simp [tcpLoop]
  | cons a rest ih =>
    show (match connect a with
      | ConnectOutcome.success => true
      | _ => tcpLoop connect rest) = true ↔ _
    cases hc : connect a with
    | success => simp [hc]
    | refused => simp [ih, hc]
    | timedOut => simp [ih, hc]
    | unreachable => simp [ih, hc]

/-- C7 counterexample: an unresolvable host — `socket.getaddrinfo` raising
`gaierror` — is swallowed by the outer `except Exception: return False` of
`tcp_open` and folded into the ordinary `false` result; it is not reported
as a distinct error (the function cannot report one: it always returns a
boolean), contradicting the claim's "reported as a distinct error". -/
theorem C7_resolution_error_folds_counterexample :
    tcp_open (Except.error "gaierror: Name or service not known")
      (fun _ => ConnectOutcome.success) = false := rfl

/-- C7 (amended): `tcp_open` is total (never raises): it returns `true`
exactly when resolution succeeded and some resolved address accepts the
connection (the loop tries every address and stops at the first success),
and it returns `false` both on ordinary per-address network failure and on
resolution failure — the latter is folded into `false`, not reported
distinctly. -/
theorem C7_amended_probe_folds_all_failures :
    (∀ (resolved : Except String (List String))
        (connect : String → ConnectOutcome),
      tcp_open resolved connect = true ↔
        ∃ addrs, resolved = Except.ok addrs ∧
          ∃ a ∈ addrs, connect a = ConnectOutcome.success) ∧
    (∀ (msg : String) (connect : String → ConnectOutcome),
      tcp_open (Except.error msg) connect = false) := by
  constructor
  · intro resolved connect
    cases resolved with
    | error msg => simp [tcp_open]
    | ok addrs => simp [tcp_open, tcpLoop_eq_true_iff]
  · intro msg connect
    rfl

/-! ### The AirPyrt control-plane operations (ssh/common.py) -/

/-- Result of one external `subprocess.run` invocation of the AirPyrt tool:
exit status and combined captured output text. -/
structure CompletedProcess where
  returncode : Int
  stdout : String
deriving DecidableEq

/-- `run(cmd, check=True)` (ssh/common.py lines 10-17): `subprocess.run`
with `check=True` raises `CalledProcessError` exactly when the process exit
status is non-zero; nothing else about the result is inspected. -/
def run (result : CompletedProcess) (check : Bool) :
    Except CompletedProcess CompletedProcess :=
  if check = true ∧ result.returncode ≠ 0 then Except.error result
  else Except.ok result

/-- The error text `e.stdout.strip() if e.stdout else str(e)` used by the
`except CalledProcessError` handlers. -/
def errMsg (e : CompletedProcess) : String :=
  if e.stdout = "" then "CalledProcessError" else e.stdout.trim

/-- `set_dbug` (ssh/common.py lines 62-74): run the AirPyrt
`--setprop dbug` command with `check=True`; a `CalledProcessError` is
re-raised as a `RuntimeError` carrying the output text. -/
def set_dbug (result : CompletedProcess) (value_hex : String) :
    Except String Unit :=
  match run result true with
  | Except.error e =>
      Except.error ("Failed to set dbug=" ++ value_hex
        ++ " via AirPyrt. Output: " ++ errMsg e)
  | Except.ok _ => Except.ok ()

/-- `remove_property` (ssh/common.py lines 77-93), same shape. -/
def remove_property (result : CompletedProcess) (pname : String) :
    Except String Unit :=
  match run result true with
  | Except.error e =>
      Except.error ("Failed to remove property '" ++ pname
        ++ "' via AirPyrt. Output: " ++ errMsg e)
  | Except.ok _ => Except.ok ()

/-- `reboot` (ssh/common.py lines 96-108), same shape. -/
def reboot (result : CompletedProcess) : Except String Unit :=
  match run result true with
  | Except.error e =>
      Except.error ("Reboot command failed. Output: " ++ errMsg e)
  | Except.ok _ => Except.ok ()

/-- C8 counterexample: AirPyrt reporting a wrong-credential failure through
its output text while exiting with status 0 is reported as success by
`set_dbug` — the output payload is never inspected for error markers,
contradicting the claim. -/
theorem C8_payload_markers_counterexample :
    set_dbug ⟨0, "Error: ACP authentication failed"⟩ "0x3000"
      = Except.ok () ∧
    strHasSub "Error" "Error: ACP authentication failed" = true := by
  exact ⟨rfl, by decide⟩

/-- C8 (amended): the three control-plane operations report failure (raise a
`RuntimeError` with diagnostic text, no retry) exactly when the external
process exits with a non-zero status; the output text is never inspected, so
an embedded error marker under exit status 0 is reported as success. -/
theorem C8_amended_exit_status_only :
    ∀ (res : CompletedProcess) (v pname : String),
      ((∃ msg, set_dbug res v = Except.error msg) ↔ res.returncode ≠ 0) ∧
      ((∃ msg, remove_property res pname = Except.error msg)
        ↔ res.returncode ≠ 0) ∧
      ((∃ msg, reboot res = Except.error msg) ↔ res.returncode ≠ 0) := by
  intro res v pname
  by_cases h : res.returncode = 0 <;>
    simp [set_dbug, remove_property, reboot, run, h]

/-! ### The polling loops (`wait_for_ssh`, `ssh_stays_disabled`) -/

/-- The loop of `wait_for_ssh` (setup.py lines 91-105) on a discrete clock:
while the current time is before the deadline, sleep `interval` (advancing
the clock), then probe the port; return at the first probe matching the
expected state.  `isOpen t` is the abstract network state of port 22 at
time `t`.  The value is the time of the successful probe (`none` encodes
Python's `return False` on timeout) paired with the instrumented list of
every time at which the probe was evaluated.  `fuel` bounds the iteration
count; the wrapper below passes enough fuel for every positive interval. -/
def waitSamples (isOpen : Nat → Bool) (expected : Bool)
    (deadline interval : Nat) : Nat → Nat → Option Nat × List Nat
  | 0, _ => (none, [])
  | Nat.succ fuel, t =>
    if t < deadline then
      let t' := t + interval
      if isOpen t' = expected then (some t', [t'])
      else
        let r := waitSamples isOpen expected deadline interval fuel t'
        (r.1, t' :: r.2)
    else (none, [])

/-- `wait_for_ssh` (setup.py lines 91-105): `deadline = time() + timeout`,
then the sleep-probe loop. -/
def wait_for_ssh (isOpen : Nat → Bool) (expected : Bool)
    (t0 timeoutSeconds intervalSeconds : Nat) : Option Nat × List Nat :=
  waitSamples isOpen expected (t0 + timeoutSeconds) intervalSeconds
    (timeoutSeconds + 1) t0

theorem waitSamples_succ (isOpen : Nat → Bool) (expected : Bool)
    (deadline interval fuel t : Nat) :
    waitSamples isOpen expected deadline interval (fuel + 1) t
      = if t < deadline then
          (if isOpen (t + interval) = expected
            then (some (t + interval), [t + interval])
            else ((waitSamples isOpen expected deadline interval fuel
                (t + interval)).1,
              (t + interval) ::
                (waitSamples isOpen expected deadline interval fuel
                  (t + interval)).2))
        else (none, []) := rfl

theorem waitSamples_ge (isOpen : Nat → Bool) (expected : Bool)
    (deadline interval : Nat) :
    ∀ (fuel t : Nat),
      (∀ u ∈ (waitSamples isOpen expected deadline interval fuel t).2,
        t + interval ≤ u) ∧
      (∀ u, (waitSamples isOpen expected deadline interval fuel t).1 = some u
        → t + interval ≤ u) := by
  intro fuel
  induction fuel with
  | zero =>
    intro t
    refine ⟨fun u hu => absurd hu (by simp [waitSamples]), fun u hu => ?_⟩
    simp [waitSamples] at hu
  | succ fuel ih =>
    intro t
    rw [waitSamples_succ]
    by_cases hd : t < deadline
    · rw [if_pos hd]
      by_cases hm : isOpen (t + interval) = expected
      · rw [if_pos hm]
        constructor
        · intro u hu
          have h : u = t + interval := by simpa using hu
          rw [h]
        · intro u hu
          have h : t + interval = u := by simpa using hu
          rw [h]
      · rw [if_neg hm]
        constructor
        · intro u hu
          have h : u = t + interval ∨
              u ∈ (waitSamples isOpen expected deadline interval fuel
                (t + interval)).2 := by simpa using hu
          rcases h with h | h
          · rw [h]
          · exact le_trans (Nat.le_add_right _ _) ((ih (t + interval)).1 u h)
        · intro u hu
          exact le_trans (Nat.le_add_right _ _) ((ih (t + interval)).2 u hu)
    · rw [if_neg hd]
      refine ⟨fun u hu => absurd hu (by simp), fun u hu => ?_⟩
      simp at hu

theorem waitSamples_head (isOpen : Nat → Bool) (expected : Bool)
    (deadline interval : Nat) (fuel t : Nat) :
    ∀ u us, (waitSamples isOpen expected deadline interval fuel t).2
      = u :: us → u = t + interval := by
  intro u us h
  cases fuel with
  | zero => simp [waitSamples] at h
  | succ fuel =>
    rw [waitSamples_succ] at h
    by_cases hd : t < deadline
    · rw [if_pos hd] at h
      by_cases hm : isOpen (t + interval) = expected
      · rw [if_pos hm] at h
        have h2 : t + interval = u := by
          have h3 : [t + interval] = u :: us := by simpa using h
          injection h3 with h4 h5
        exact h2.symm
      · rw [if_neg hm] at h
        have h3 : (t + interval) ::
            (waitSamples isOpen expected deadline interval fuel
              (t + interval)).2 = u :: us := by simpa using h
        injection h3 with h4 h5
        exact h4.symm
    · rw [if_neg hd] at h
      simp at h

/-- C6: every probe of `wait_for_ssh` happens at or after one full interval
past the start time — the loop sleeps before checking — so the first probe
is exactly at `t0 + interval`, and even a condition satisfied from the very
start cannot produce a successful return before one interval has elapsed. -/
theorem C6_first_check_after_one_interval :
    ∀ (isOpen : Nat → Bool) (expected : Bool) (t0 timeout interval : Nat),
      (∀ u ∈ (wait_for_ssh isOpen expected t0 timeout interval).2,
        t0 + interval ≤ u) ∧
      (∀ u us, (wait_for_ssh isOpen expected t0 timeout interval).2
        = u :: us → u = t0 + interval) ∧
      (∀ u, (wait_for_ssh isOpen expected t0 timeout interval).1 = some u →
        t0 + interval ≤ u) := by
  intro isOpen expected t0 timeout interval
  exact ⟨(waitSamples_ge isOpen expected (t0 + timeout) interval
      (timeout + 1) t0).1,
    fun u us h => waitSamples_head isOpen expected (t0 + timeout) interval
      (timeout + 1) t0 u us h,
    (waitSamples_ge isOpen expected (t0 + timeout) interval
      (timeout + 1) t0).2⟩

/-- C6 witness: a port that is open at every instant probed with
`expected_state = open` still succeeds only at time `t0 + interval = 5`. -/
theorem C6_first_check_after_one_interval_witness :
    (wait_for_ssh (fun _ => true) true 0 10 5).1 = some 5 ∧ 0 + 5 ≤ 5 :=
  ⟨rfl, (C6_first_check_after_one_interval (fun _ => true) true 0 10 5).2.2
    5 rfl⟩

/-- The loop of `ssh_stays_disabled` (ssh/disable_ssh.py lines 107-115) on
the discrete clock: while before the deadline, sleep `interval` then probe
port 22; an open sample fails immediately; surviving the whole window
succeeds.  Returns the verdict and the instrumented list of probed times. -/
def staysSamples (isOpen : Nat → Bool) (deadline interval : Nat) :
    Nat → Nat → Bool × List Nat
  | 0, _ => (true, [])
  | Nat.succ fuel, t =>
    if t < deadline then
      let t' := t + interval
      if isOpen t' then (false, [t'])
      else
        let r := staysSamples isOpen deadline interval fuel t'
        (r.1, t' :: r.2)
    else (true, [])

/-- `ssh_stays_disabled` (ssh/disable_ssh.py lines 107-115):
`deadline = time() + stabilization_seconds`, then the sleep-probe loop. -/
def ssh_stays_disabled (isOpen : Nat → Bool)
    (t0 stabilizationSeconds intervalSeconds : Nat) : Bool × List Nat :=
  staysSamples isOpen (t0 + stabilizationSeconds) intervalSeconds
    (stabilizationSeconds + 1) t0

theorem staysSamples_succ (isOpen : Nat → Bool)
    (deadline interval fuel t : Nat) :
    staysSamples isOpen deadline interval (fuel + 1) t
      = if t < deadline then
          (if isOpen (t + interval) then (false, [t + interval])
            else ((staysSamples isOpen deadline interval fuel
                (t + interval)).1,
              (t + interval) ::
                (staysSamples isOpen deadline interval fuel
                  (t + interval)).2))
        else (true, []) := rfl

theorem staysSamples_true_iff (isOpen : Nat → Bool)
    (deadline interval : Nat) :
    ∀ (fuel t : Nat),
      (staysSamples isOpen deadline interval fuel t).1 = true ↔
        ∀ u ∈ (staysSamples isOpen deadline interval fuel t).2,
          isOpen u = false := by
  intro fuel
  induction fuel with
  | zero =>
    intro t
    simp [staysSamples]
  | succ fuel ih =>
    intro t
    rw [staysSamples_succ]
    by_cases hd : t < deadline
    · rw [if_pos hd]
      cases hm : isOpen (t + interval) with
      | true =>
        rw [if_pos rfl]
        constructor
        · intro h
          cases h
        · intro h
          have := h (t + interval) (by simp)
          rw [hm] at this
          cases this
      | false =>
        rw [if_neg (by simp)]
        constructor
        · intro h u hu
          rcases (by simpa using hu :
              u = t + interval ∨
                u ∈ (staysSamples isOpen deadline interval fuel
                  (t + interval)).2) with h2 | h2
          · rw [h2, hm]
          · exact ((ih (t + interval)).mp h) u h2
        · intro h
          exact (ih (t + interval)).mpr
            (fun u hu => h u (by simp [hu]))
    · rw [if_neg hd]
      simp

theorem staysSamples_coverage (isOpen : Nat → Bool)
    (deadline interval : Nat) (hi : 0 < interval) :
    ∀ (fuel t : Nat), deadline ≤ t + fuel * interval →
      (staysSamples isOpen deadline interval fuel t).1 = true →
      ∀ k, t + k * interval < deadline →
        t + (k + 1) * interval
          ∈ (staysSamples isOpen deadline interval fuel t).2 := by
  intro fuel
  induction fuel with
  | zero =>
    intro t hfuel _ k hk
    exfalso
    have : t ≤ t + k * interval := Nat.le_add_right _ _
    omega
  | succ fuel ih =>
    intro t hfuel htrue k hk
    rw [staysSamples_succ] at htrue ⊢
    have hd : t < deadline := by
      have : t ≤ t + k * interval := Nat.le_add_right _ _
      omega
    rw [if_pos hd] at htrue ⊢
    cases hm : isOpen (t + interval) with
    | true =>
      rw [if_pos hm] at htrue
      cases htrue
    | false =>
      rw [if_neg (by simp [hm])] at htrue
      rw [if_neg (by simp)]
      cases k with
      | zero => simp
      | succ j =>
        have harith : t + (j + 1 + 1) * interval
            = (t + interval) + (j + 1) * interval := by ring
        have harith2 : (t + interval) + j * interval
            = t + (j + 1) * interval := by ring
        have hfuel' : deadline ≤ (t + interval) + fuel * interval := by
          have : t + (fuel + 1) * interval
              = (t + interval) + fuel * interval := by ring
          omega
        have hk' : (t + interval) + j * interval < deadline := by
          rw [harith2]
          exact hk
        have hmem := ih (t + interval) hfuel' htrue j hk'
        rw [harith]
        simp only [List.mem_cons]
        exact Or.inr hmem

/-- C9 counterexample: the post-reboot verification actually used by
`setup.py`'s main flow is `wait_for_ssh(host, expected_state=False,
timeout_seconds=30)`; with port 22 closed at the first sample (t = 5) but
open again from t = 10 — well inside the 30-second window — it returns
success at that single first matching sample, so a single matching sample
does count as success and a later contradicting sample inside the window
does not make the verification fail, contradicting the claim. -/
theorem C9_single_sample_counterexample :
    (wait_for_ssh (fun t => decide (10 ≤ t)) false 0 30 5).1 = some 5 ∧
    (fun t : Nat => decide (10 ≤ t)) 10 = true ∧ (10 : Nat) < 0 + 30 := by
  exact ⟨rfl, rfl, by decide⟩

/-- C9 (amended): the helper `ssh_stays_disabled` does implement the stable
check the claim describes — it succeeds iff every sample it probed during
the stabilization window showed the port closed (any open sample makes it
fail), and on success it probed every scheduled instant of the window (one
sample per interval, so a single sample cannot carry the verdict unless the
window only schedules one) — but the verification in `setup.py` main uses
`wait_for_ssh`, which returns success at the first matching sample (see the
counterexample). -/
theorem C9_amended_stays_disabled_window :
    ∀ (isOpen : Nat → Bool) (t0 stab interval : Nat), 0 < interval →
      ((ssh_stays_disabled isOpen t0 stab interval).1 = true ↔
        ∀ u ∈ (ssh_stays_disabled isOpen t0 stab interval).2,
          isOpen u = false) ∧
      ((ssh_stays_disabled isOpen t0 stab interval).1 = true →
        ∀ k, t0 + k * interval < t0 + stab →
          t0 + (k + 1) * interval
            ∈ (ssh_stays_disabled isOpen t0 stab interval).2) := by
  intro isOpen t0 stab interval hi
  constructor
  · exact staysSamples_true_iff isOpen (t0 + stab) interval (stab + 1) t0
  · intro htrue k hk
    have hfuel : t0 + stab ≤ t0 + (stab + 1) * interval := by
      have h1 : stab + 1 ≤ (stab + 1) * interval :=
        Nat.le_mul_of_pos_right _ hi
      omega
    exact staysSamples_coverage isOpen (t0 + stab) interval hi (stab + 1)
      t0 hfuel htrue k hk

/-- C9 witness: the amended theorem applied to a trace where the port stays
closed, giving that the sample at `t = 5` was taken during the window. -/
theorem C9_amended_stays_disabled_window_witness :
    0 + (0 + 1) * 5 ∈ (ssh_stays_disabled (fun _ => false) 0 30 5).2 :=
  (C9_amended_stays_disabled_window (fun _ => false) 0 30 5 (by decide)).2
    (by decide) 0 (by decide)

end TimeCapsule
